import Mathlib

set_option maxRecDepth 4096

/-! Shallow embedding of the pypeline framework (src/pipeline.py) and proofs of the
specification claims about it.  Python-level machine details are modelled as follows:
Python values reachable by the attribute machinery become the inductive type PyVal
(with an Attribute placeholder object as one constructor), class bodies become an
ordered association list of annotations plus an ordered association list of members,
exceptions become Except String, console prints become an accumulated list of event
strings, and the mutable instance state threaded through stage actions becomes an
explicit state parameter. -/

/-- Declared attribute types appearing in pipeline class annotations
(the source only ever uses int and str; custom covers any other type object). -/
inductive Ty where
  | int
  | str
  | custom (nm : String)
  deriving DecidableEq

/-- Python values handled by the attribute machinery of pipeline.py.
The attrVal constructor models an Attribute placeholder object with its
name, type, required, description and default slots (Attribute.__slots__).
The required slot is carried as data because the Python object has a mutable
required field even though Attribute.__init__ always stores False in it. -/
inductive PyVal where
  | none
  | int (n : Int)
  | str (s : String)
  | attrVal (nm : String) (ty : Ty) (required : Bool) (description : String) (default : PyVal)
  deriving DecidableEq

/-- isinstance(v, Attribute) on a PyVal. -/
def PyVal.isAttr : PyVal → Bool
  | PyVal.attrVal _ _ _ _ _ => true
  | _ => false

/-- The Attribute record (class Attribute, pipeline.py lines 50-68). -/
structure Attribute where
  name : String
  type : Ty
  required : Bool
  description : String
  default : PyVal
  deriving DecidableEq

/-- Attribute.__init__ (pipeline.py lines 59-68): stores name and type, hardcodes
required := false, stores the description, raises SyntaxError when required and the
default is not None (the guard on line 65, checked after required was already set
to False on line 62), then stores the default. -/
def Attribute.init (nm : String) (a_type : Ty) (description : String) (default : PyVal) :
    Except String Attribute :=
  let required : Bool := false
  if required && !(default == PyVal.none) then
    Except.error "SyntaxError: An attribute cannot, at the same time, be required and have a default value."
  else
    Except.ok { name := nm, type := a_type, required := required,
                description := description, default := default }

/-- The Stage decorator object (class Stage, pipeline.py lines 6-21): a display
name plus an order rank drawn from the class-level counter. -/
structure Stage where
  name : String
  order : Nat
  deriving DecidableEq

/-- Initial value of the process-wide counter Stage.next_identifier (line 7). -/
def Stage.nextIdentifier : Nat := 1

/-- Stage.__init__ (lines 9-12): reads the global counter for the order rank and
increments it.  The module-level mutable counter is threaded explicitly. -/
def Stage.init (nm : String) (counter : Nat) : Stage × Nat :=
  ({ name := nm, order := counter }, counter + 1)

/-- A function tagged by the Stage decorator: the wrapper plus the
__stage_name__ and __stage_order__ metadata attached to it (lines 14-21). -/
structure TaggedFunction (α β : Type) where
  call : α → β
  stage_name : String
  stage_order : Nat

/-- Stage.__call__ (lines 14-21): wraps the function in a wrapper that forwards
its arguments unchanged and attaches the (name, order) metadata.  For an action
that can raise, instantiate β with an Except type: the wrapper forwards the
returned value or exception as-is. -/
def Stage.tag {α β : Type} (s : Stage) (function : α → β) : TaggedFunction α β :=
  { call := fun args => function args, stage_name := s.name, stage_order := s.order }

/-- One stage declaration event in the process: which pipeline definition it
belongs to and the display name passed to the decorator. -/
structure StageDecl where
  pipelineName : String
  stageName : String
  deriving DecidableEq

/-- All stage declarations of the process in textual order, each performing
Stage.__init__ against the single shared counter. -/
def declareStages : List StageDecl → Nat → List (StageDecl × Stage) × Nat
  | [], c => ([], c)
  | d :: rest, c =>
    ((d, (Stage.init d.stageName c).1) :: (declareStages rest (Stage.init d.stageName c).2).1,
     (declareStages rest (Stage.init d.stageName c).2).2)

/-- A runnable stage bound to one pipeline instance (class StageImpl, lines 24-47).
The back-reference to the pipeline object is dropped: the source stores it but
never reads it.  The bound action is modelled as a state transformer that either
returns the updated instance state or raises. -/
structure StageImpl (σ ε : Type) where
  name : String
  order : Nat
  function : σ → Except ε σ

/-- StageImpl.__init__ (lines 32-36): reads the metadata off the tagged method. -/
def StageImpl.init {σ ε : Type} (t : TaggedFunction σ (Except ε σ)) : StageImpl σ ε :=
  { name := t.stage_name, order := t.stage_order, function := t.call }

/-- StageImpl.__eq__ (lines 38-39): equality is decided by order alone. -/
def StageImpl.beq {σ ε : Type} (a b : StageImpl σ ε) : Bool :=
  a.order == b.order

/-- StageImpl.__lt__ (lines 41-42): ordering is decided by order alone. -/
def StageImpl.blt {σ ε : Type} (a b : StageImpl σ ε) : Bool :=
  decide (a.order < b.order)

/-- The stage-start console event (line 45). -/
def runningMsg (nm : String) : String := "[" ++ nm ++ "] Running..."

/-- The stage-completion console event (line 47). -/
def executedMsg (nm : String) : String := "[" ++ nm ++ "] Executed."

/-- StageImpl.run (lines 44-47): print the Running event, invoke the action, and
print the Executed event only if the action returned; an exception escapes after
the Running event alone. -/
def StageImpl.run {σ ε : Type} (s : StageImpl σ ε) (st : σ) : List String × Except ε σ :=
  match s.function st with
  | Except.ok st2 => ([runningMsg s.name, executedMsg s.name], Except.ok st2)
  | Except.error e => ([runningMsg s.name], Except.error e)

/-- Lexicographic comparison of character lists by code point, the ordering
Python uses on strings. -/
def charListLt : List Char → List Char → Bool
  | _, [] => false
  | [], _ :: _ => true
  | a :: as, b :: bs =>
    if a.toNat < b.toNat then true
    else if b.toNat < a.toNat then false
    else charListLt as bs

/-- Python string comparison a < b, used by inspect.getmembers to order the
collected methods by method name. -/
def strLtB (a b : String) : Bool := charListLt a.data b.data

/-- Stable insertion of an element into a list, placing it before the first
element it compares less-or-equal to. -/
def insertLe {γ : Type} (le : γ → γ → Bool) (a : γ) : List γ → List γ
  | [] => [a]
  | b :: l => if le a b then a :: b :: l else b :: insertLe le a l

/-- Stable sort by a boolean comparison, modelling Python stable sorting:
list.sort() driven by __lt__ (its le is the negation of the flipped __lt__)
and the alphabetical ordering of inspect.getmembers. -/
def sortLe {γ : Type} (le : γ → γ → Bool) : List γ → List γ
  | [] => []
  | a :: l => insertLe le a (sortLe le l)

/-- The runnable pipeline instance state relevant to execution: its bound,
sorted stage list (the __stages__ slot of PipelineImpl, lines 147-163). -/
structure PipelineImpl (σ ε : Type) where
  stages : List (StageImpl σ ε)

/-- PipelineImpl.__init__ (lines 152-163): collect the tagged methods
(inspect.getmembers returns them sorted alphabetically by method name), build a
StageImpl for each, then sort the list with the __lt__ comparison (stable). -/
def PipelineImpl.init {σ ε : Type}
    (methods : List (String × TaggedFunction σ (Except ε σ))) : PipelineImpl σ ε :=
  { stages :=
      sortLe (fun a b => !(StageImpl.blt b a))
        ((sortLe (fun a b => !(strLtB b.1 a.1)) methods).map (fun m => StageImpl.init m.2)) }

/-- The loop body of PipelineImpl.start (lines 165-167): run each stage in list
order, threading the instance state; an exception aborts the loop immediately
and propagates, keeping the events emitted so far. -/
def runStages {σ ε : Type} : List (StageImpl σ ε) → σ → List String × Except ε σ
  | [], st => ([], Except.ok st)
  | s :: rest, st =>
    match StageImpl.run s st with
    | (evs, Except.ok st2) =>
      (evs ++ (runStages rest st2).1, (runStages rest st2).2)
    | (evs, Except.error e) => (evs, Except.error e)

/-- PipelineImpl.start (lines 165-167). -/
def PipelineImpl.start {σ ε : Type} (p : PipelineImpl σ ε) (st : σ) :
    List String × Except ε σ :=
  runStages p.stages st

/-- The event trace a fully successful run is expected to produce: the Running
and Executed events of each stage, interleaved, in list order. -/
def expectedEvents {σ ε : Type} : List (StageImpl σ ε) → List String
  | [] => []
  | s :: rest => runningMsg s.name :: executedMsg s.name :: expectedEvents rest

/-- A pipeline class definition as seen by the Pipeline decorator: the ordered
__annotations__ mapping of the class body, and the ordered class __dict__ entries
holding values (only value-bearing members matter to the attribute machinery;
methods are never Attribute instances). -/
structure ClassDef where
  anns : List (String × Ty)
  members : List (String × PyVal)
  deriving DecidableEq

/-- name.startswith an underscore (the privacy filter on line 88). -/
def underscored (s : String) : Bool :=
  match s.data with
  | [] => false
  | c :: _ => c == '_'

/-- getattr(cls, name, None) over the class members (line 91). -/
def getattrD (members : List (String × PyVal)) (nm : String) : PyVal :=
  match members.find? (fun p => p.1 == nm) with
  | some p => p.2
  | none => PyVal.none

/-- setattr(cls, name, value): replace the existing entry in place, else append
(line 105). -/
def setattrL : List (String × PyVal) → String → PyVal → List (String × PyVal)
  | [], k, v => [(k, v)]
  | p :: ps, k, v => if p.1 == k then (k, v) :: ps else p :: setattrL ps k v

/-- Python dict assignment attributes[name] = attribute: overwrite in place, else
append (insertion-ordered dict, line 101). -/
def dictInsert : List (String × Attribute) → String → Attribute → List (String × Attribute)
  | [], k, a => [(k, a)]
  | p :: ps, k, a => if p.1 == k then (k, a) :: ps else p :: dictInsert ps k a

/-- The Attribute record one non-underscored annotated field contributes
(lines 91-96): the field value itself when it is an Attribute placeholder,
otherwise a fresh Attribute with the field value as default.  Pure
characterization of the loop body, proved equal to the faithful collectAttrs. -/
def attrOfField (members : List (String × PyVal)) (nm : String) (ty : Ty) : Attribute :=
  match getattrD members nm with
  | PyVal.attrVal n t r d df => { name := n, type := t, required := r, description := d, default := df }
  | v => { name := nm, type := ty, required := false, description := "", default := v }

/-- The attribute-collection loop of Pipeline.wrap (lines 85-98): walk the
annotations in order, skip underscored names, take the Attribute placeholder as
the attribute when the field value is one, otherwise build an Attribute from
the name, the annotated type and the field value as default; an exception from
Attribute.__init__ would propagate. -/
def collectAttrs (members : List (String × PyVal)) : List (String × Ty) → Except String (List Attribute)
  | [] => Except.ok []
  | (nm, ty) :: rest =>
    if underscored nm then collectAttrs members rest
    else
      match getattrD members nm with
      | PyVal.attrVal n t r d df =>
        match collectAttrs members rest with
        | Except.ok l => Except.ok (Attribute.mk n t r d df :: l)
        | Except.error e => Except.error e
      | v =>
        match Attribute.init nm ty "" v with
        | Except.ok a =>
          match collectAttrs members rest with
          | Except.ok l => Except.ok (a :: l)
          | Except.error e => Except.error e
        | Except.error e => Except.error e

/-- The cls_attributes list of Pipeline.wrap for a class definition. -/
def clsAttributes (cls : ClassDef) : Except String (List Attribute) :=
  collectAttrs cls.members cls.anns

/-- Pure characterization of clsAttributes: one Attribute per non-underscored
annotated field, in declaration order. -/
def clsAttributesList (cls : ClassDef) : List Attribute :=
  (cls.anns.filter (fun p => !(underscored p.1))).map (fun p => attrOfField cls.members p.1 p.2)

/-- The resulting attribute schema of one pipeline definition: the
__pipeline_attributes__ insertion-ordered mapping (line 113). -/
structure Schema where
  attributes : List (String × Attribute)
  deriving DecidableEq

/-- The attributes dict built on lines 100-101: keyed by each Attribute record
field name, in list order. -/
def pipelineAttrsDict (l : List Attribute) : List (String × Attribute) :=
  l.foldl (fun d a => dictInsert d a.name a) []

/-- The placeholder-replacement loop of lines 103-105: each class member that
still holds an Attribute placeholder under an attribute name is overwritten by
that attribute default value. -/
def replacedMembers (members : List (String × PyVal)) (l : List Attribute) : List (String × PyVal) :=
  l.foldl (fun ms a => if (getattrD ms a.name).isAttr then setattrL ms a.name a.default else ms) members

/-- Whether the generated __init__ parameter list compiles in Python: once a
defaulted parameter (required = false) appears, every later parameter must be
defaulted too, otherwise exec of the generated def raises SyntaxError. -/
def paramOrderOk : List Bool → Bool
  | [] => true
  | true :: rest => paramOrderOk rest
  | false :: rest => rest.all (fun b => !b)

/-- The remainder of Pipeline.wrap after the attribute list is collected
(lines 100-137): build the attributes dict, replace placeholders by their
defaults, raise SyntaxError for any Attribute value whose name is not among the
attributes (the misdefined-attribute check of lines 107-110), then exec the
generated constructor, which raises SyntaxError when a non-defaulted parameter
follows a defaulted one. -/
def wrapCore (cls : ClassDef) (l : List Attribute) : Except String Schema :=
  match (replacedMembers cls.members l).find?
      (fun p => p.2.isAttr && !((pipelineAttrsDict l).any (fun q => q.1 == p.1))) with
  | some p => Except.error ("SyntaxError: " ++ p.1 ++ " has been defined but it is missing a type!")
  | none =>
    if paramOrderOk ((pipelineAttrsDict l).map (fun q => q.2.required)) then
      Except.ok { attributes := pipelineAttrsDict l }
    else
      Except.error "SyntaxError: non-default argument follows default argument"

/-- Pipeline.wrap (lines 72-137): process a pipeline class definition into its
attribute schema, or raise. -/
def Pipeline.wrap (cls : ClassDef) : Except String Schema :=
  match clsAttributes cls with
  | Except.ok l => wrapCore cls l
  | Except.error e => Except.error e

/-- Calling the generated __init__ with keyword configuration values
(lines 117-135): for each schema attribute in order, the supplied value if
present, else the attribute default when the parameter is defaulted
(required = false), else the missing-required-argument TypeError Python raises
when a bare positional parameter receives no value.  Construction emits no
stage events: the generated body only assigns fields and super().__init__()
only collects and sorts the stages without printing. -/
def constructFields : List (String × Attribute) → List (String × PyVal) → Except String (List (String × PyVal))
  | [], _ => Except.ok []
  | (nm, a) :: rest, kwargs =>
    match kwargs.find? (fun q => q.1 == nm) with
    | some q =>
      match constructFields rest kwargs with
      | Except.ok fs => Except.ok ((nm, q.2) :: fs)
      | Except.error e => Except.error e
    | none =>
      if a.required then
        Except.error ("TypeError: missing required argument: " ++ nm)
      else
        match constructFields rest kwargs with
        | Except.ok fs => Except.ok ((nm, a.default) :: fs)
        | Except.error e => Except.error e

/-- Constructing a pipeline instance from a processed schema. -/
def Schema.construct (s : Schema) (kwargs : List (String × PyVal)) :
    Except String (List (String × PyVal)) :=
  constructFields s.attributes kwargs

/-- The resolved value of one schema attribute: the supplied keyword value if
present, otherwise the attribute default.  Statement helper for the
construction theorems. -/
def resolveAttr (kwargs : List (String × PyVal)) (p : String × Attribute) : String × PyVal :=
  (p.1, match kwargs.find? (fun q => q.1 == p.1) with
        | some q => q.2
        | none => p.2.default)

/-- The MyPipeline example definition of the source: changelist annotated int
with no class value, value annotated str with literal default. -/
def myPipelineDef : ClassDef :=
  { anns := [("changelist", Ty.int), ("value", Ty.str)],
    members := [("value", PyVal.str "Default.txt")] }

/-- The schema Pipeline.wrap derives for myPipelineDef. -/
def myPipelineSchema : Schema :=
  { attributes :=
      [("changelist", { name := "changelist", type := Ty.int, required := false,
                        description := "", default := PyVal.none }),
       ("value", { name := "value", type := Ty.str, required := false,
                   description := "", default := PyVal.str "Default.txt" })] }

/-- A definition whose changelist field holds an Attribute placeholder whose
required slot is true (reachable in Python only by mutating the placeholder
object after construction, since Attribute.__init__ hardcodes required = False). -/
def requiredDef : ClassDef :=
  { anns := [("changelist", Ty.int), ("value", Ty.str)],
    members := [("changelist", PyVal.attrVal "changelist" Ty.int true "" PyVal.none),
                ("value", PyVal.str "Default.txt")] }

/-- The schema Pipeline.wrap derives for requiredDef: changelist is required. -/
def requiredSchema : Schema :=
  { attributes :=
      [("changelist", { name := "changelist", type := Ty.int, required := true,
                        description := "", default := PyVal.none }),
       ("value", { name := "value", type := Ty.str, required := false,
                   description := "", default := PyVal.str "Default.txt" })] }

/-- A definition with an attribute that is both marked required and carries a
non-absent default. -/
def requiredDefaultDef : ClassDef :=
  { anns := [("changelist", Ty.int)],
    members := [("changelist", PyVal.attrVal "changelist" Ty.int true "" (PyVal.str "Default.txt"))] }

/-- The schema Pipeline.wrap derives for requiredDefaultDef: the required and
defaulted attribute is accepted without any definition error. -/
def requiredDefaultSchema : Schema :=
  { attributes :=
      [("changelist", { name := "changelist", type := Ty.int, required := true,
                        description := "", default := PyVal.str "Default.txt" })] }

/-- A definition holding an Attribute placeholder in a member that has no
matching type annotation. -/
def misdefinedDef : ClassDef :=
  { anns := [("changelist", Ty.int)],
    members := [("value", PyVal.attrVal "value" Ty.str false "" (PyVal.str "Default.txt"))] }

/-- A definition with an underscored annotated field next to two plain ones. -/
def underscoreDef : ClassDef :=
  { anns := [("_hidden", Ty.int), ("changelist", Ty.int), ("value", Ty.str)],
    members := [("value", PyVal.str "Default.txt"), ("_hidden", PyVal.int 7)] }

/-- The schema Pipeline.wrap derives for underscoreDef: the underscored field
contributes nothing. -/
def underscoreSchema : Schema :=
  { attributes :=
      [("changelist", { name := "changelist", type := Ty.int, required := false,
                        description := "", default := PyVal.none }),
       ("value", { name := "value", type := Ty.str, required := false,
                   description := "", default := PyVal.str "Default.txt" })] }

/-- A stage action that succeeds and returns the instance state unchanged. -/
def demoAction : Int → Except String Int := fun st => Except.ok st

/-- A tagged stage method, as the Stage decorator leaves it. -/
def demoTagged (nm : String) (ord : Nat) : TaggedFunction Int (Except String Int) :=
  { call := demoAction, stage_name := nm, stage_order := ord }

/-- The tagged methods of the MyPipeline example, keyed by method name. -/
def demoMethods : List (String × TaggedFunction Int (Except String Int)) :=
  [("submit", demoTagged "Submit" 3), ("build", demoTagged "Build" 2), ("sync", demoTagged "Sync" 1)]

/-- A bound stage whose action succeeds. -/
def stgOk (nm : String) (ord : Nat) : StageImpl Int String :=
  { name := nm, order := ord, function := fun st => Except.ok st }

/-- A bound stage whose action raises. -/
def stgFail (nm : String) (ord : Nat) : StageImpl Int String :=
  { name := nm, order := ord, function := fun _ => Except.error "boom" }

/-- Stage declarations of two unrelated pipeline definitions interleaved in
process textual order. -/
def declsDemo : List StageDecl :=
  [{ pipelineName := "PipeA", stageName := "Sync" },
   { pipelineName := "PipeB", stageName := "Deploy" },
   { pipelineName := "PipeA", stageName := "Build" },
   { pipelineName := "PipeA", stageName := "Submit" }]

/-- Attribute.__init__ never raises and always stores required = false: the
guard on line 65 reads the required flag that line 62 just hardcoded to False,
so the required-and-default branch is dead code. -/
theorem attribute_init_ok (nm : String) (ty : Ty) (d : String) (v : PyVal) :
    Attribute.init nm ty d v =
      Except.ok { name := nm, type := ty, required := false, description := d, default := v } :=
  rfl

/-- Every element of an insertLe result is the inserted element or one of the
original elements. -/
theorem insertLe_mem {γ : Type} (le : γ → γ → Bool) (a x : γ) (l : List γ)
    (h : x ∈ insertLe le a l) : x = a ∨ x ∈ l := by
  induction l with
  | nil => simpa [insertLe] using h
  | cons b t ih =>
    cases hab : le a b with
    | true =>
      simp [insertLe, hab] at h
      rcases h with h | h | h
      · exact Or.inl h
      · exact Or.inr (by simp [h])
      · exact Or.inr (by simp [h])
    | false =>
      simp [insertLe, hab] at h
      rcases h with h | h
      · exact Or.inr (by simp [h])
      · rcases ih h with h2 | h2
        · exact Or.inl h2
        · exact Or.inr (List.mem_cons_of_mem b h2)

/-- insertLe preserves pairwise ordering for a total transitive comparison. -/
theorem insertLe_pairwise {γ : Type} (le : γ → γ → Bool)
    (htot : ∀ a b, le a b = true ∨ le b a = true)
    (htrans : ∀ a b c, le a b = true → le b c = true → le a c = true)
    (a : γ) (l : List γ) (hl : l.Pairwise (fun x y => le x y = true)) :
    (insertLe le a l).Pairwise (fun x y => le x y = true) := by
  induction l with
  | nil => simp [insertLe]
  | cons b t ih =>
    cases hl with
    | cons hb ht =>
      cases hab : le a b with
      | true =>
        have hgoal : insertLe le a (b :: t) = a :: b :: t := by simp [insertLe, hab]
        rw [hgoal]
        refine List.Pairwise.cons ?_ (List.Pairwise.cons hb ht)
        intro y hy
        rcases List.mem_cons.mp hy with rfl | hy2
        · exact hab
        · exact htrans a b y hab (hb y hy2)
      | false =>
        have hgoal : insertLe le a (b :: t) = b :: insertLe le a t := by simp [insertLe, hab]
        rw [hgoal]
        refine List.Pairwise.cons ?_ (ih ht)
        intro y hy
        rcases insertLe_mem le a y t hy with rfl | hy2
        · rcases htot y b with h1 | h1
          · simp [h1] at hab
          · exact h1
        · exact hb y hy2

/-- sortLe sorts: its output is pairwise ordered for a total transitive
comparison. -/
theorem sortLe_pairwise {γ : Type} (le : γ → γ → Bool)
    (htot : ∀ a b, le a b = true ∨ le b a = true)
    (htrans : ∀ a b c, le a b = true → le b c = true → le a c = true)
    (l : List γ) : (sortLe le l).Pairwise (fun x y => le x y = true) := by
  induction l with
  | nil => simp [sortLe]
  | cons a t ih => exact insertLe_pairwise le htot htrans a (sortLe le t) ih

/-- insertLe only reorders: the result is a permutation of consing the element. -/
theorem insertLe_perm {γ : Type} (le : γ → γ → Bool) (a : γ) (l : List γ) :
    List.Perm (insertLe le a l) (a :: l) := by
  induction l with
  | nil => exact List.Perm.refl [a]
  | cons b t ih =>
    cases hab : le a b with
    | true =>
      have hgoal : insertLe le a (b :: t) = a :: b :: t := by simp [insertLe, hab]
      rw [hgoal]
    | false =>
      have hgoal : insertLe le a (b :: t) = b :: insertLe le a t := by simp [insertLe, hab]
      rw [hgoal]
      exact (ih.cons b).trans (List.Perm.swap a b t)

/-- sortLe only reorders: its output is a permutation of its input. -/
theorem sortLe_perm {γ : Type} (le : γ → γ → Bool) (l : List γ) :
    List.Perm (sortLe le l) l := by
  induction l with
  | nil => exact List.Perm.refl []
  | cons a t ih => exact (insertLe_perm le a (sortLe le t)).trans (ih.cons a)

/-- The order comparison used to sort the stage list is total. -/
theorem leOrder_total {σ ε : Type} (a b : StageImpl σ ε) :
    (!(StageImpl.blt b a)) = true ∨ (!(StageImpl.blt a b)) = true := by
  rcases Nat.lt_or_ge b.order a.order with h | h
  · right
    simp [StageImpl.blt]
    omega
  · left
    simp [StageImpl.blt]
    omega

/-- The order comparison used to sort the stage list is transitive. -/
theorem leOrder_trans {σ ε : Type} (a b c : StageImpl σ ε)
    (h1 : (!(StageImpl.blt b a)) = true) (h2 : (!(StageImpl.blt c b)) = true) :
    (!(StageImpl.blt c a)) = true := by
  simp [StageImpl.blt] at h1 h2 ⊢
  omega

/-- A fully expected event trace has two events per stage. -/
theorem expectedEvents_length {σ ε : Type} (l : List (StageImpl σ ε)) :
    (expectedEvents l).length = 2 * l.length := by
  induction l with
  | nil => rfl
  | cons s t ih =>
    simp [expectedEvents, ih]
    omega

/-- Running a stage list whose actions all succeed emits the interleaved
Running and Executed events of every stage, in list order, and ends
successfully. -/
theorem runStages_all_ok {σ ε : Type} (stages : List (StageImpl σ ε)) (st : σ)
    (h : ∀ s ∈ stages, ∀ st1 : σ, ∃ st2, s.function st1 = Except.ok st2) :
    (runStages stages st).1 = expectedEvents stages ∧
    ∃ stF, (runStages stages st).2 = Except.ok stF := by
  revert h
  induction stages generalizing st with
  | nil =>
    intro _
    exact ⟨rfl, st, rfl⟩
  | cons s rest ih =>
    intro h
    obtain ⟨st2, hf⟩ := h s (List.mem_cons_self s rest) st
    have hrest : ∀ s2 ∈ rest, ∀ st1 : σ, ∃ st3, s2.function st1 = Except.ok st3 :=
      fun s2 hs2 st1 => h s2 (List.mem_cons_of_mem s hs2) st1
    obtain ⟨he, stF, hF⟩ := ih st2 hrest
    constructor
    · simp [runStages, StageImpl.run, hf, he, expectedEvents]
    · exact ⟨stF, by simp [runStages, StageImpl.run, hf, hF]⟩

/-- Claim C1: start() invokes the bound stage actions in ascending order of
their order ranks, strictly sequentially (the next stage action receives the
state the previous one returned, modelling that it never begins before the
previous action returns), emitting the Running event right before each action
and the Executed event right after it returns, so a run of n stages that all
succeed produces exactly 2n events in that fixed interleaved order.  The stage
list executed is sorted ascending by order, is a permutation of all tagged
methods of the definition, and the emitted trace is exactly the interleaved
expected trace of that sorted list. -/
theorem start_executes_stages_in_order {σ ε : Type}
    (methods : List (String × TaggedFunction σ (Except ε σ))) (st : σ)
    (h : ∀ s ∈ (PipelineImpl.init methods).stages, ∀ st1 : σ, ∃ st2, s.function st1 = Except.ok st2) :
    (PipelineImpl.init methods).stages.Pairwise (fun a b => a.order ≤ b.order) ∧
    List.Perm (PipelineImpl.init methods).stages (methods.map (fun m => StageImpl.init m.2)) ∧
    (PipelineImpl.start (PipelineImpl.init methods) st).1
      = expectedEvents (PipelineImpl.init methods).stages ∧
    ((PipelineImpl.start (PipelineImpl.init methods) st).1).length
      = 2 * (PipelineImpl.init methods).stages.length := by
  obtain ⟨he, hF⟩ := runStages_all_ok (PipelineImpl.init methods).stages st h
  refine ⟨?_, ?_, he, ?_⟩
  · have hp := sortLe_pairwise (fun a b : StageImpl σ ε => !(StageImpl.blt b a))
      leOrder_total leOrder_trans
      ((sortLe (fun a b => !(strLtB b.1 a.1)) methods).map (fun m => StageImpl.init m.2))
    refine List.Pairwise.imp ?_ hp
    intro a b hab
    simp [StageImpl.blt] at hab
    omega
  · exact (sortLe_perm _ _).trans (List.Perm.map _ (sortLe_perm _ _))
  · show ((runStages (PipelineImpl.init methods).stages st).1).length = _
    rw [he]
    exact expectedEvents_length _

/-- Witness for C1 on the MyPipeline example: three stages declared as Sync,
Build, Submit with orders 1, 2, 3 run in that order and emit the six events. -/
theorem start_executes_stages_in_order_witness :
    (PipelineImpl.start (PipelineImpl.init demoMethods) 0).1 =
      [runningMsg "Sync", executedMsg "Sync", runningMsg "Build", executedMsg "Build",
       runningMsg "Submit", executedMsg "Submit"] := by
  refine ((start_executes_stages_in_order demoMethods 0 ?_).2.2.1).trans (by rfl)
  intro s hs st1
  have e : (PipelineImpl.init demoMethods).stages =
      [StageImpl.init (demoTagged "Sync" 1), StageImpl.init (demoTagged "Build" 2),
       StageImpl.init (demoTagged "Submit" 3)] := rfl
  rw [e] at hs
  simp only [List.mem_cons, List.not_mem_nil, or_false] at hs
  rcases hs with rfl | rfl | rfl
  · exact ⟨st1, rfl⟩
  · exact ⟨st1, rfl⟩
  · exact ⟨st1, rfl⟩

/-- Claim C6: if a stage action raises during start(), the failure propagates
unchanged to the caller, no later stage action is invoked and no later stage
event is emitted, and the failing stage emits its Running event but not its
Executed event. -/
theorem start_aborts_on_error {σ ε : Type} (pre post : List (StageImpl σ ε))
    (s : StageImpl σ ε) (st st2 : σ) (e : ε)
    (hpre : (runStages pre st).2 = Except.ok st2)
    (hs : s.function st2 = Except.error e) :
    PipelineImpl.start { stages := pre ++ s :: post } st =
      ((runStages pre st).1 ++ [runningMsg s.name], Except.error e) := by
  show runStages (pre ++ s :: post) st = _
  revert hpre
  induction pre generalizing st with
  | nil =>
    intro hpre
    have h0 : st = st2 := by simpa [runStages] using hpre
    subst h0
    simp [runStages, StageImpl.run, hs]
  | cons p ps ih =>
    intro hpre
    cases hf : p.function st with
    | error e2 =>
      exfalso
      simp [runStages, StageImpl.run, hf] at hpre
    | ok st1 =>
      have hpre2 : (runStages ps st1).2 = Except.ok st2 := by
        simpa [runStages, StageImpl.run, hf] using hpre
      have e1 : runStages ((p :: ps) ++ s :: post) st =
          ([runningMsg p.name, executedMsg p.name] ++ (runStages (ps ++ s :: post) st1).1,
           (runStages (ps ++ s :: post) st1).2) := by
        show runStages (p :: (ps ++ s :: post)) st = _
        simp [runStages, StageImpl.run, hf]
      have e2 : runStages (p :: ps) st =
          ([runningMsg p.name, executedMsg p.name] ++ (runStages ps st1).1,
           (runStages ps st1).2) := by
        simp [runStages, StageImpl.run, hf]
      rw [e1, ih st1 hpre2, e2]
      simp [runStages, StageImpl.run, hf, List.append_assoc]

/-- Witness for C6: Sync succeeds, Build raises "boom", Submit never runs; the
trace stops right after the Build Running event and the error is surfaced
unchanged. -/
theorem start_aborts_on_error_witness :
    PipelineImpl.start { stages := [stgOk "Sync" 1, stgFail "Build" 2, stgOk "Submit" 3] } (0 : Int) =
      ([runningMsg "Sync", executedMsg "Sync", runningMsg "Build"], Except.error "boom") := by
  have h := start_aborts_on_error [stgOk "Sync" 1] [stgOk "Submit" 3] (stgFail "Build" 2)
    (0 : Int) 0 "boom" rfl rfl
  exact h.trans (by rfl)

/-- Claim C7: tagging an action as a stage is transparent: the wrapper forwards
every argument list to the original function and returns exactly its result
(instantiate the result type with an Except type to read this as raising
exactly the same exceptions); tagging only attaches the name and order
metadata. -/
theorem tag_transparent {α β : Type} (s : Stage) (f : α → β) (args : α) :
    (Stage.tag s f).call args = f args ∧
    (Stage.tag s f).stage_name = s.name ∧
    (Stage.tag s f).stage_order = s.order :=
  ⟨rfl, rfl, rfl⟩

/-- Claim C9: two bound stages compare equal exactly when their order ranks are
equal, and less-than exactly when the order ranks are ordered, regardless of
their names or actions. -/
theorem stage_eq_iff_order {σ ε : Type} (a b : StageImpl σ ε) :
    (StageImpl.beq a b = true ↔ a.order = b.order) ∧
    (StageImpl.blt a b = true ↔ a.order < b.order) := by
  constructor
  · simp [StageImpl.beq]
  · simp [StageImpl.blt]

/-- Claim C3 (code bug): Attribute.__init__ hardcodes required = False on
line 62 before evaluating the guard on line 65, so the guard can never fire:
every declarable attribute comes out non-required and no declaration ever
raises, and a definition whose attribute carries required = True (reachable
only by mutating the placeholder) together with a non-absent default is
processed without any DefinitionError instead of being rejected. -/
theorem required_default_guard_unreachable :
    (∀ (nm : String) (ty : Ty) (d : String) (v : PyVal),
      ∃ a, Attribute.init nm ty d v = Except.ok a ∧ a.required = false) ∧
    Pipeline.wrap requiredDefaultDef = Except.ok requiredDefaultSchema := by
  constructor
  · intro nm ty d v
    exact ⟨_, rfl, rfl⟩
  · rfl

/-- The list produced by declareStages has one stage per declaration. -/
theorem declareStages_length (ds : List StageDecl) (c : Nat) :
    (declareStages ds c).1.length = ds.length := by
  induction ds generalizing c with
  | nil => rfl
  | cons d rest ih => simp [declareStages, ih]

/-- The k-th stage declared against counter value c gets order rank c + k. -/
theorem declareStages_get? (ds : List StageDecl) (c k : Nat) (hk : k < ds.length) :
    ∃ d, (declareStages ds c).1.get? k = some (d, { name := d.stageName, order := c + k }) := by
  induction ds generalizing c k with
  | nil => simp at hk
  | cons d rest ih =>
    cases k with
    | zero => exact ⟨d, rfl⟩
    | succ k =>
      have hk2 : k < rest.length := by simpa using hk
      obtain ⟨d2, hd2⟩ := ih (c + 1) k hk2
      have e : c + 1 + k = c + (k + 1) := by omega
      refine ⟨d2, ?_⟩
      have hstep : (declareStages (d :: rest) c).1.get? (k + 1)
          = (declareStages rest (c + 1)).1.get? k := rfl
      rw [hstep, hd2, e]

/-- Claim C4: stage order ranks come from the single process-wide counter, one
increment per declaration, so whenever declaration i precedes declaration j in
process order, stage i has a strictly smaller order rank than stage j,
regardless of which pipeline definitions the two declarations belong to. -/
theorem stage_orders_strictly_increase (ds : List StageDecl) (c i j : Nat)
    (hj : j < ds.length) (hij : i < j) :
    ∃ si sj, (declareStages ds c).1.get? i = some si ∧
      (declareStages ds c).1.get? j = some sj ∧ si.2.order < sj.2.order := by
  obtain ⟨di, hi⟩ := declareStages_get? ds c i (lt_trans hij hj)
  obtain ⟨dj, hjj⟩ := declareStages_get? ds c j hj
  exact ⟨_, _, hi, hjj, show c + i < c + j by omega⟩

/-- Witness for C4: four declarations from two unrelated pipeline definitions
interleaved; the first PipeA stage has a strictly smaller order than the PipeA
stage declared after the PipeB stage. -/
theorem stage_orders_strictly_increase_witness :
    ∃ si sj, (declareStages declsDemo Stage.nextIdentifier).1.get? 0 = some si ∧
      (declareStages declsDemo Stage.nextIdentifier).1.get? 2 = some sj ∧
      si.2.order < sj.2.order :=
  stage_orders_strictly_increase declsDemo Stage.nextIdentifier 0 2 (by decide) (by decide)

/-- The attribute-collection loop never raises and produces exactly one
Attribute per non-underscored annotated field, in declaration order. -/
theorem collectAttrs_eq (members : List (String × PyVal)) (anns : List (String × Ty)) :
    collectAttrs members anns =
      Except.ok ((anns.filter (fun p => !(underscored p.1))).map
        (fun p => attrOfField members p.1 p.2)) := by
  induction anns with
  | nil => rfl
  | cons p rest ih =>
    obtain ⟨nm, ty⟩ := p
    cases hu : underscored nm with
    | true => simp [collectAttrs, List.filter, hu, ih]
    | false =>
      cases hv : getattrD members nm with
      | attrVal n t r d df => simp [collectAttrs, List.filter, attrOfField, hu, hv, ih]
      | none => simp [collectAttrs, List.filter, attrOfField, Attribute.init, hu, hv, ih]
      | int n => simp [collectAttrs, List.filter, attrOfField, Attribute.init, hu, hv, ih]
      | str s2 => simp [collectAttrs, List.filter, attrOfField, Attribute.init, hu, hv, ih]

/-- clsAttributes never raises: its value is the filtered, ordered attribute
list. -/
theorem clsAttributes_ok (cls : ClassDef) :
    clsAttributes cls = Except.ok (clsAttributesList cls) :=
  collectAttrs_eq cls.members cls.anns

/-- Pipeline.wrap reduces to its post-collection phase on the attribute list. -/
theorem wrap_eq (cls : ClassDef) :
    Pipeline.wrap cls = wrapCore cls (clsAttributesList cls) := by
  unfold Pipeline.wrap
  rw [clsAttributes_ok]

/-- setattr on a different key leaves lookups of a name unchanged. -/
theorem setattrL_find?_ne (ms : List (String × PyVal)) (k : String) (v : PyVal) (nm : String)
    (h : (k == nm) = false) :
    (setattrL ms k v).find? (fun p => p.1 == nm) = ms.find? (fun p => p.1 == nm) := by
  induction ms with
  | nil => simp [setattrL, List.find?, h]
  | cons p ps ih =>
    cases hk : p.1 == k with
    | true =>
      have hpn : (p.1 == nm) = false := by
        rw [eq_of_beq hk]
        exact h
      simp [setattrL, hk, List.find?, hpn, h]
    | false =>
      cases hn : p.1 == nm with
      | true => simp [setattrL, hk, List.find?, hn]
      | false => simp [setattrL, hk, List.find?, hn, ih]

/-- The placeholder-replacement loop only touches attribute names, so lookups
of any other name are unchanged. -/
theorem replacedMembers_find?_ne (members : List (String × PyVal)) (l : List Attribute)
    (nm : String) (h : ∀ a ∈ l, a.name ≠ nm) :
    (replacedMembers members l).find? (fun p => p.1 == nm)
      = members.find? (fun p => p.1 == nm) := by
  induction l generalizing members with
  | nil => rfl
  | cons a t ih =>
    have ha : a.name ≠ nm := h a (List.mem_cons_self a t)
    have hb : (a.name == nm) = false := by simpa using ha
    have ht : ∀ b ∈ t, b.name ≠ nm := fun b hb2 => h b (List.mem_cons_of_mem a hb2)
    have e : replacedMembers members (a :: t) =
        replacedMembers
          (if (getattrD members a.name).isAttr then setattrL members a.name a.default else members)
          t := rfl
    rw [e]
    by_cases hc : (getattrD members a.name).isAttr = true
    · rw [if_pos hc, ih (setattrL members a.name a.default) ht,
        setattrL_find?_ne members a.name a.default nm hb]
    · rw [if_neg hc, ih members ht]

/-- Every entry of a dictInsert result is the inserted pair or an original
entry. -/
theorem dictInsert_mem (d : List (String × Attribute)) (k : String) (a : Attribute)
    (x : String × Attribute) (h : x ∈ dictInsert d k a) : x = (k, a) ∨ x ∈ d := by
  induction d with
  | nil => simpa [dictInsert] using h
  | cons p ps ih =>
    cases hk : p.1 == k with
    | true =>
      simp [dictInsert, hk] at h
      rcases h with h | h
      · exact Or.inl (by simp [h])
      · exact Or.inr (List.mem_cons_of_mem p h)
    | false =>
      simp [dictInsert, hk] at h
      rcases h with h | h
      · exact Or.inr (by simp [h])
      · rcases ih h with h2 | h2
        · exact Or.inl h2
        · exact Or.inr (List.mem_cons_of_mem p h2)

/-- Every key of the attributes dict fold is the name of some collected
attribute. -/
theorem foldl_dictInsert_mem (l : List Attribute) (acc : List (String × Attribute))
    (x : String × Attribute) (h : x ∈ l.foldl (fun d a => dictInsert d a.name a) acc) :
    x ∈ acc ∨ ∃ a ∈ l, x.1 = a.name := by
  induction l generalizing acc with
  | nil => exact Or.inl h
  | cons a t ih =>
    have e : (a :: t).foldl (fun d b => dictInsert d b.name b) acc
        = t.foldl (fun d b => dictInsert d b.name b) (dictInsert acc a.name a) := rfl
    rw [e] at h
    rcases ih (dictInsert acc a.name a) h with h2 | h2
    · rcases dictInsert_mem acc a.name a x h2 with h3 | h3
      · exact Or.inr ⟨a, List.mem_cons_self a t, by rw [h3]⟩
      · exact Or.inl h3
    · obtain ⟨b, hb, he⟩ := h2
      exact Or.inr ⟨b, List.mem_cons_of_mem a hb, he⟩

/-- Every key of the attributes dict is the name of some collected attribute. -/
theorem pipelineAttrsDict_keys (l : List Attribute) (x : String × Attribute)
    (h : x ∈ pipelineAttrsDict l) : ∃ a ∈ l, x.1 = a.name := by
  rcases foldl_dictInsert_mem l [] x h with h2 | h2
  · simp at h2
  · exact h2

/-- Inserting an absent key appends. -/
theorem dictInsert_append (d : List (String × Attribute)) (k : String) (a : Attribute)
    (h : ∀ p ∈ d, p.1 ≠ k) : dictInsert d k a = d ++ [(k, a)] := by
  induction d with
  | nil => rfl
  | cons p ps ih =>
    have hp : p.1 ≠ k := h p (List.mem_cons_self p ps)
    have hb : (p.1 == k) = false := by simpa using hp
    simp [dictInsert, hb]
    exact ih (fun q hq => h q (List.mem_cons_of_mem p hq))

/-- With pairwise distinct attribute names the dict fold pairs each attribute
with its name, in list order. -/
theorem foldl_dictInsert_eq (l : List Attribute) (acc : List (String × Attribute))
    (hd : ∀ a ∈ l, ∀ p ∈ acc, p.1 ≠ a.name)
    (hn : (l.map Attribute.name).Nodup) :
    l.foldl (fun d a => dictInsert d a.name a) acc = acc ++ l.map (fun a => (a.name, a)) := by
  induction l generalizing acc with
  | nil => simp
  | cons a t ih =>
    have e : (a :: t).foldl (fun d b => dictInsert d b.name b) acc
        = t.foldl (fun d b => dictInsert d b.name b) (dictInsert acc a.name a) := rfl
    rw [List.map_cons, List.nodup_cons] at hn
    obtain ⟨hna, hn2⟩ := hn
    rw [e, dictInsert_append acc a.name a (fun p hp => hd a (List.mem_cons_self a t) p hp)]
    rw [ih (acc ++ [(a.name, a)]) ?hd2 hn2]
    · simp
    case hd2 =>
      intro b hb p hp
      rcases List.mem_append.mp hp with hp2 | hp2
      · exact hd b (List.mem_cons_of_mem a hb) p hp2
      · have hpv : p = (a.name, a) := by simpa using hp2
        rw [hpv]
        show a.name ≠ b.name
        intro hcon
        exact hna (by rw [hcon]; exact List.mem_map_of_mem Attribute.name hb)

/-- With pairwise distinct attribute names the attributes dict is the
name-paired attribute list. -/
theorem pipelineAttrsDict_eq (l : List Attribute) (hn : (l.map Attribute.name).Nodup) :
    pipelineAttrsDict l = l.map (fun a => (a.name, a)) := by
  have h := foldl_dictInsert_eq l [] (by intro a _ p hp; simp at hp) hn
  simpa [pipelineAttrsDict] using h

/-- find? succeeds whenever some list entry satisfies the predicate. -/
theorem find?_isSome_of_mem {γ : Type} (p : γ → Bool) (l : List γ) (x : γ)
    (hx : x ∈ l) (hp : p x = true) : ∃ y, l.find? p = some y := by
  induction l with
  | nil => simp at hx
  | cons a t ih =>
    cases ha : p a with
    | true => exact ⟨a, by simp [List.find?, ha]⟩
    | false =>
      rcases List.mem_cons.mp hx with rfl | hx2
      · simp [ha] at hp
      · obtain ⟨y, hy⟩ := ih hx2
        exact ⟨y, by simp [List.find?, ha, hy]⟩

/-- The generated constructor resolves every attribute: the supplied value when
present, else the default; it succeeds whenever every required attribute is
supplied. -/
theorem constructFields_resolves (attrs : List (String × Attribute))
    (kwargs : List (String × PyVal))
    (h : ∀ p ∈ attrs, p.2.required = true → (kwargs.find? (fun q => q.1 == p.1)).isSome = true) :
    constructFields attrs kwargs = Except.ok (attrs.map (resolveAttr kwargs)) := by
  induction attrs with
  | nil => rfl
  | cons p rest ih =>
    obtain ⟨nm, a⟩ := p
    have hrest : ∀ q ∈ rest, q.2.required = true →
        (kwargs.find? (fun q2 => q2.1 == q.1)).isSome = true :=
      fun q hq => h q (List.mem_cons_of_mem (nm, a) hq)
    cases hf : kwargs.find? (fun q => q.1 == nm) with
    | some q => simp [constructFields, hf, ih hrest, resolveAttr]
    | none =>
      cases hr : a.required with
      | true =>
        exfalso
        have hh := h (nm, a) (List.mem_cons_self (nm, a) rest) hr
        rw [hf] at hh
        simp at hh
      | false => simp [constructFields, hf, hr, ih hrest, resolveAttr]

/-- The generated constructor raises when some required attribute receives no
keyword value. -/
theorem constructFields_missing (attrs : List (String × Attribute))
    (kwargs : List (String × PyVal)) (nm : String) (a : Attribute)
    (hmem : (nm, a) ∈ attrs) (hreq : a.required = true)
    (hmiss : kwargs.find? (fun q => q.1 == nm) = none) :
    ∃ msg, constructFields attrs kwargs = Except.error msg := by
  induction attrs with
  | nil => simp at hmem
  | cons p rest ih =>
    obtain ⟨m, b⟩ := p
    rcases List.mem_cons.mp hmem with he | hmem2
    · rw [Prod.ext_iff] at he
      obtain ⟨e1, e2⟩ := he
      cases e1
      cases e2
      exact ⟨"TypeError: missing required argument: " ++ nm,
        by simp [constructFields, hmiss, hreq]⟩
    · cases hf : kwargs.find? (fun q => q.1 == m) with
      | some q =>
        obtain ⟨msg, hm⟩ := ih hmem2
        exact ⟨msg, by simp [constructFields, hf, hm]⟩
      | none =>
        cases hr : b.required with
        | true =>
          exact ⟨"TypeError: missing required argument: " ++ m,
            by simp [constructFields, hf, hr]⟩
        | false =>
          obtain ⟨msg, hm⟩ := ih hmem2
          exact ⟨msg, by simp [constructFields, hf, hr, hm]⟩

/-- On success the constructor assigns exactly the schema attribute names, in
schema order. -/
theorem constructFields_keys (attrs : List (String × Attribute))
    (kwargs : List (String × PyVal)) (fields : List (String × PyVal))
    (h : constructFields attrs kwargs = Except.ok fields) :
    fields.map Prod.fst = attrs.map Prod.fst := by
  induction attrs generalizing fields with
  | nil =>
    simp [constructFields] at h
    rw [h]
    rfl
  | cons p rest ih =>
    obtain ⟨nm, a⟩ := p
    cases hf : kwargs.find? (fun q => q.1 == nm) with
    | some q =>
      cases hc : constructFields rest kwargs with
      | ok fs =>
        simp [constructFields, hf, hc] at h
        rw [← h]
        simp [ih fs hc]
      | error e => simp [constructFields, hf, hc] at h
    | none =>
      cases hr : a.required with
      | true => simp [constructFields, hf, hr] at h
      | false =>
        cases hc : constructFields rest kwargs with
        | ok fs =>
          simp [constructFields, hf, hr, hc] at h
          rw [← h]
          simp [ih fs hc]
        | error e => simp [constructFields, hf, hr, hc] at h

/-- Claim C5: for every attribute with a default, constructing without
supplying that attribute yields an instance field equal to the default
exactly, and supplying an explicit value always makes the field equal the
supplied value: the constructed field list is the schema mapped through
keyword-or-default resolution. -/
theorem construct_resolves (s : Schema) (kwargs : List (String × PyVal))
    (h : ∀ p ∈ s.attributes, p.2.required = true →
      (kwargs.find? (fun q => q.1 == p.1)).isSome = true) :
    Schema.construct s kwargs = Except.ok (s.attributes.map (resolveAttr kwargs)) :=
  constructFields_resolves s.attributes kwargs h

/-- Witness for C5 on the schema of the MyPipeline example: omitting both
attributes yields the defaults (changelist None, value "Default.txt");
supplying both yields the supplied values. -/
theorem construct_resolves_witness :
    Schema.construct myPipelineSchema [] =
      Except.ok [("changelist", PyVal.none), ("value", PyVal.str "Default.txt")] ∧
    Schema.construct myPipelineSchema
        [("changelist", PyVal.int 50), ("value", PyVal.str "Hello.txt")] =
      Except.ok [("changelist", PyVal.int 50), ("value", PyVal.str "Hello.txt")] := by
  constructor
  · exact (construct_resolves myPipelineSchema [] (by decide)).trans (by rfl)
  · exact (construct_resolves myPipelineSchema
      [("changelist", PyVal.int 50), ("value", PyVal.str "Hello.txt")] (by decide)).trans (by rfl)

/-- Claim C2: for a schema containing a required attribute (required
attributes are reachable in the source only through placeholder mutation,
since Attribute.__init__ hardcodes required = False; the generated constructor
then makes the attribute a bare positional parameter), constructing while
omitting that attribute fails with the missing-required-argument error, before
any stage event fires (construction emits no events in this model, mirroring
the print-free generated __init__), and constructing while supplying every
required attribute succeeds. -/
theorem required_attribute_enforced (s : Schema) (nm : String) (a : Attribute)
    (kwargs : List (String × PyVal))
    (hmem : (nm, a) ∈ s.attributes) (hreq : a.required = true) :
    (kwargs.find? (fun q => q.1 == nm) = none →
      ∃ msg, Schema.construct s kwargs = Except.error msg) ∧
    ((∀ p ∈ s.attributes, p.2.required = true →
        (kwargs.find? (fun q => q.1 == p.1)).isSome = true) →
      ∃ fields, Schema.construct s kwargs = Except.ok fields) := by
  constructor
  · intro hmiss
    exact constructFields_missing s.attributes kwargs nm a hmem hreq hmiss
  · intro hall
    exact ⟨_, constructFields_resolves s.attributes kwargs hall⟩

/-- Witness for C2: the requiredDef definition wraps to a schema whose
changelist attribute is required; construction omitting changelist fails and
construction supplying it succeeds. -/
theorem required_attribute_enforced_witness :
    Pipeline.wrap requiredDef = Except.ok requiredSchema ∧
    (∃ msg, Schema.construct requiredSchema [("value", PyVal.str "Hello.txt")] =
      Except.error msg) ∧
    (∃ fields, Schema.construct requiredSchema
        [("changelist", PyVal.int 50), ("value", PyVal.str "Hello.txt")] =
      Except.ok fields) := by
  refine ⟨rfl, ?_, ?_⟩
  · exact (required_attribute_enforced requiredSchema "changelist"
      { name := "changelist", type := Ty.int, required := true, description := "",
        default := PyVal.none }
      [("value", PyVal.str "Hello.txt")] (by decide) rfl).1 (by rfl)
  · exact (required_attribute_enforced requiredSchema "changelist"
      { name := "changelist", type := Ty.int, required := true, description := "",
        default := PyVal.none }
      [("changelist", PyVal.int 50), ("value", PyVal.str "Hello.txt")] (by decide) rfl).2
      (by decide)

/-- Claim C8: a definition holding an Attribute placeholder in a member whose
name matches no collected attribute (no matching declared type annotation) is
rejected by Pipeline.wrap with the missing-a-type SyntaxError. -/
theorem misdefined_attribute_rejected (cls : ClassDef) (nm : String) (v : PyVal)
    (hfind : cls.members.find? (fun p => p.1 == nm) = some (nm, v))
    (hattr : v.isAttr = true)
    (hno : ∀ a ∈ clsAttributesList cls, a.name ≠ nm) :
    ∃ msg, Pipeline.wrap cls = Except.error msg := by
  rw [wrap_eq]
  have hfind2 : (replacedMembers cls.members (clsAttributesList cls)).find?
      (fun p => p.1 == nm) = some (nm, v) := by
    rw [replacedMembers_find?_ne cls.members _ nm hno]
    exact hfind
  have hmem : (nm, v) ∈ replacedMembers cls.members (clsAttributesList cls) :=
    List.mem_of_find?_eq_some hfind2
  have hany : (pipelineAttrsDict (clsAttributesList cls)).any (fun q => q.1 == nm) = false := by
    cases hany2 : (pipelineAttrsDict (clsAttributesList cls)).any (fun q => q.1 == nm) with
    | false => rfl
    | true =>
      exfalso
      obtain ⟨x, hx, hpx⟩ := List.any_eq_true.mp hany2
      obtain ⟨a2, ha2, he2⟩ := pipelineAttrsDict_keys (clsAttributesList cls) x hx
      exact hno a2 ha2 (by rw [← he2]; exact eq_of_beq hpx)
  have hpred : ((nm, v).2.isAttr &&
      !((pipelineAttrsDict (clsAttributesList cls)).any (fun q => q.1 == (nm, v).1))) = true := by
    simp [hattr, hany]
  obtain ⟨y, hy⟩ := find?_isSome_of_mem
    (fun p => p.2.isAttr && !((pipelineAttrsDict (clsAttributesList cls)).any (fun q => q.1 == p.1)))
    (replacedMembers cls.members (clsAttributesList cls)) (nm, v) hmem hpred
  unfold wrapCore
  rw [hy]
  exact ⟨_, rfl⟩

/-- Witness for C8: a member holding an Attribute placeholder named value with
no value annotation is rejected. -/
theorem misdefined_attribute_rejected_witness :
    ∃ msg, Pipeline.wrap misdefinedDef = Except.error msg :=
  misdefined_attribute_rejected misdefinedDef "value"
    (PyVal.attrVal "value" Ty.str false "" (PyVal.str "Default.txt")) (by rfl) (by rfl) (by decide)

/-- Claim C10: underscored annotated fields are excluded from the attribute
schema: the collected attribute list is exactly one Attribute per
non-underscored annotated field in declaration order (first conjunct), the
processed schema pairs exactly those attributes with their names (second
conjunct, assuming the attribute names are pairwise distinct so the dict
merges nothing), and every successfully constructed instance assigns exactly
those attribute names and no underscored field (third conjunct). -/
theorem underscore_fields_excluded (cls : ClassDef) (schema : Schema)
    (hwrap : Pipeline.wrap cls = Except.ok schema)
    (hnd : ((clsAttributesList cls).map Attribute.name).Nodup) :
    clsAttributes cls = Except.ok (clsAttributesList cls) ∧
    schema.attributes = (clsAttributesList cls).map (fun a => (a.name, a)) ∧
    ∀ kwargs fields, Schema.construct schema kwargs = Except.ok fields →
      fields.map Prod.fst = (clsAttributesList cls).map Attribute.name := by
  rw [wrap_eq] at hwrap
  unfold wrapCore at hwrap
  have hattrs : schema.attributes = pipelineAttrsDict (clsAttributesList cls) := by
    cases hfs : (replacedMembers cls.members (clsAttributesList cls)).find?
        (fun p => p.2.isAttr &&
          !((pipelineAttrsDict (clsAttributesList cls)).any (fun q => q.1 == p.1))) with
    | some p =>
      rw [hfs] at hwrap
      simp at hwrap
    | none =>
      rw [hfs] at hwrap
      by_cases hpo : paramOrderOk
          ((pipelineAttrsDict (clsAttributesList cls)).map (fun q => q.2.required)) = true
      · rw [if_pos hpo] at hwrap
        injection hwrap with h2
        rw [← h2]
      · rw [if_neg hpo] at hwrap
        simp at hwrap
  refine ⟨clsAttributes_ok cls, ?_, ?_⟩
  · rw [hattrs, pipelineAttrsDict_eq _ hnd]
  · intro kwargs fields hcf
    have hk := constructFields_keys schema.attributes kwargs fields hcf
    rw [hk, hattrs, pipelineAttrsDict_eq _ hnd, List.map_map]
    rfl

/-- Witness for C10: the underscoreDef definition with fields _hidden,
changelist, value wraps to the two-attribute schema and a constructed instance
assigns exactly changelist and value, never _hidden. -/
theorem underscore_fields_excluded_witness :
    Pipeline.wrap underscoreDef = Except.ok underscoreSchema ∧
    underscoreSchema.attributes = (clsAttributesList underscoreDef).map (fun a => (a.name, a)) ∧
    ([("changelist", PyVal.none), ("value", PyVal.str "Default.txt")] : List (String × PyVal)).map
        Prod.fst
      = (clsAttributesList underscoreDef).map Attribute.name := by
  refine ⟨rfl,
    (underscore_fields_excluded underscoreDef underscoreSchema rfl (by decide)).2.1, ?_⟩
  exact (underscore_fields_excluded underscoreDef underscoreSchema rfl (by decide)).2.2
    [] [("changelist", PyVal.none), ("value", PyVal.str "Default.txt")] (by rfl)
